import Mathlib

/-!
Verification of the mini-compiler AVM toolchain: a shallow embedding of the
emulator (src/emulator.rs), the runtime-environment bytestack codec
(src/run/runtime_env.rs), the linker (src/link/mod.rs) and the run harness
(src/run/mod.rs), with theorems settling the frozen claims about them.

Machine integers (the 256-bit Uint256 type) are modelled as Nat with explicit
reduction mod 2^256 where the operations wrap. The mavm module (Value,
Instruction, Opcode, CodePt) and uint256 module are declared in main.rs but
their sources are not present; their data definitions are reconstructed from
the uses in the present sources and, where semantics are needed, from the
specification (such definitions carry a doc comment saying so).
-/

namespace MiniAvm

/-- Modulus of the 256-bit machine integers. -/
def uint256_modulus : Nat := 2 ^ 256

/-- Modelled from the spec: Uint256.add wraps mod 2^256 (uint256.rs absent). -/
def u256_add (a b : Nat) : Nat := (a + b) % uint256_modulus

/-- Modelled from the spec: Uint256.sub wraps mod 2^256 (uint256.rs absent). -/
def u256_sub (a b : Nat) : Nat :=
  (a + uint256_modulus - b % uint256_modulus) % uint256_modulus

/-- Modelled from the spec: Uint256.mul wraps mod 2^256 (uint256.rs absent). -/
def u256_mul (a b : Nat) : Nat := (a * b) % uint256_modulus

/-- Modelled from the spec: Uint256.div is absent on zero divisor, else the
floor quotient (uint256.rs absent). -/
def u256_div (a b : Nat) : Option Nat := if b = 0 then none else some (a / b)

/-- Modelled from the spec: Uint256.modulo is absent on zero divisor
(uint256.rs absent). -/
def u256_modulo (a b : Nat) : Option Nat := if b = 0 then none else some (a % b)

/-- Modelled from the spec: exp(a,b) = a^b mod 2^256 (uint256.rs absent). -/
def u256_exp (a b : Nat) : Nat := (a ^ b) % uint256_modulus

/-- Two-complement signed view of a 256-bit word. -/
def u256_signed (a : Nat) : Int :=
  if a < 2 ^ 255 then (a : Int) else (a : Int) - (uint256_modulus : Int)

/-- Encode a signed integer back into a 256-bit word. -/
def u256_from_signed (i : Int) : Nat :=
  (i % (uint256_modulus : Int)).toNat % uint256_modulus

/-- Modelled from the spec: signed comparison (uint256.rs absent). -/
def u256_s_less_than (a b : Nat) : Bool :=
  decide (u256_signed a < u256_signed b)

/-- Modelled from the spec: sdiv interprets the operands as two-complement
signed, rounds toward zero, absent on zero divisor (uint256.rs absent). -/
def u256_sdiv (a b : Nat) : Option Nat :=
  if b = 0 then none
  else some (u256_from_signed (Int.tdiv (u256_signed a) (u256_signed b)))

/-- Modelled from the spec: smod, signed remainder, absent on zero divisor
(uint256.rs absent). -/
def u256_smodulo (a b : Nat) : Option Nat :=
  if b = 0 then none
  else some (u256_from_signed (Int.tmod (u256_signed a) (u256_signed b)))

/-- Modelled from the spec: add_mod computes in full precision then reduces,
absent on zero modulus (uint256.rs absent). -/
def u256_add_mod (a b m : Nat) : Option Nat :=
  if m = 0 then none else some ((a + b) % m)

/-- Modelled from the spec: mul_mod computes in full precision then reduces,
absent on zero modulus (uint256.rs absent). -/
def u256_mul_mod (a b m : Nat) : Option Nat :=
  if m = 0 then none else some ((a * b) % m)

/-- Bitwise combination of the low k bits of two naturals, structurally
recursive so that it evaluates inside the kernel. -/
def u256_bitwise_aux (f : Bool → Bool → Bool) : Nat → Nat → Nat → Nat
  | 0, _, _ => 0
  | k + 1, a, b =>
    (if f (a % 2 = 1) (b % 2 = 1) then 1 else 0) + 2 * u256_bitwise_aux f k (a / 2) (b / 2)

/-- Modelled from the spec: bitwise and of 256-bit words (uint256.rs absent). -/
def u256_and (a b : Nat) : Nat := u256_bitwise_aux (fun x y => x && y) 256 a b

/-- Modelled from the spec: bitwise or of 256-bit words (uint256.rs absent). -/
def u256_or (a b : Nat) : Nat := u256_bitwise_aux (fun x y => x || y) 256 a b

/-- Modelled from the spec: bitwise xor of 256-bit words (uint256.rs absent). -/
def u256_xor (a b : Nat) : Nat := u256_bitwise_aux (fun x y => x != y) 256 a b

/-- Modelled from the spec: bitwise negation of a 256-bit word
(uint256.rs absent). -/
def u256_neg (a : Nat) : Nat := (uint256_modulus - 1) - a % uint256_modulus

/-- Modelled from the spec: unary_minus is absent on 2^255, else the
two-complement negation (uint256.rs absent). -/
def u256_unary_minus (a : Nat) : Option Nat :=
  if a = 2 ^ 255 then none
  else some ((uint256_modulus - a % uint256_modulus) % uint256_modulus)

/-- Modelled from the spec: to_usize returns the integer only if it fits the
64-bit host word (uint256.rs absent). -/
def u256_to_usize (a : Nat) : Option Nat := if a < 2 ^ 64 then some a else none

/-- Modelled from the spec: from_usize embeds a host word (uint256.rs
absent); host words always fit, the reduction only makes the model total. -/
def u256_from_usize (n : Nat) : Nat := n % uint256_modulus

/-- Code points, reconstructed from the uses in emulator.rs and link/mod.rs
(mavm.rs absent): Internal(pc), External(slot), InSegment(segment, offset). -/
inductive CodePt where
  | Internal (pc : Nat)
  | External (slot : Nat)
  | InSegment (seg : Nat) (off : Nat)
deriving DecidableEq

/-- Modelled from the spec and the panic message in Machine.incr_pc: only an
Internal code point can be incremented (mavm.rs absent). -/
def CodePt.incr : CodePt → Option CodePt
  | .Internal pc => some (.Internal (pc + 1))
  | _ => none

/-- Modelled from the use in Machine.run_one: the pc of an Internal code
point, absent for the other variants (mavm.rs absent). -/
def CodePt.pc_if_internal : CodePt → Option Nat
  | .Internal pc => some pc
  | _ => none

/-- Pre-link symbolic labels, reconstructed from link/mod.rs (mavm.rs
absent): Func(id), External(slot), Anon(id), Evm(id). -/
inductive AvmLabel where
  | Func (id : Nat)
  | External (slot : Nat)
  | Anon (id : Nat)
  | Evm (id : Nat)
deriving DecidableEq

/-- The AVM value universe, reconstructed from the uses in the present
sources (mavm.rs absent). Integers carry their 256-bit word as a Nat. -/
inductive Value where
  | Int (n : Nat)
  | CodePoint (cp : CodePt)
  | Tuple (vs : List Value)
  | Buffer (bs : List Nat)
  | Label (l : AvmLabel)

/-- Value.none is conventionally the empty tuple. -/
def Value.none : Value := .Tuple []

mutual
/-- Structural equality on values, mirroring the derived PartialEq of the
Rust Value type. -/
def Value.beq : Value → Value → Bool
  | .Int a, .Int b => a == b
  | .CodePoint a, .CodePoint b => a == b
  | .Tuple a, .Tuple b => Value.beqList a b
  | .Buffer a, .Buffer b => a == b
  | .Label a, .Label b => a == b
  | _, _ => false

/-- Pointwise structural equality on value lists. -/
def Value.beqList : List Value → List Value → Bool
  | [], [] => true
  | x :: xs, y :: ys => Value.beq x y && Value.beqList xs ys
  | _, _ => false
end

/-- The opcode universe, reconstructed from the dispatch match in
Machine.run_one and the uses in run/mod.rs and link/mod.rs (mavm.rs absent).
Inbox and Log are dispatched by the runtime-capable emulator declared as
run/emulator.rs, whose source is absent. -/
inductive Opcode where
  | Noop | Panic | Jump | Cjump | GetPC | Rget | Rset | PushStatic
  | Tset | Tget | Pop | AuxPush | AuxPop | Xget | Xset
  | Dup0 | Dup1 | Dup2 | Swap1 | Swap2
  | Not | UnaryMinus | BitwiseNeg | Hash | Hash2 | Len
  | Plus | Minus | Mul | Div | Mod | Sdiv | Smod | AddMod | MulMod | Exp
  | LessThan | GreaterThan | SLessThan | SGreaterThan | Equal | NotEqual
  | BitwiseAnd | BitwiseOr | BitwiseXor | Byte | SignExtend
  | LogicalAnd | LogicalOr | DebugPrint
  | Inbox | Log
  | GetLocal | SetLocal
  | MakeFrame (space : Nat) (returns : Nat)
  | Label (l : AvmLabel)
  | PushExternal (slot : Nat)
  | TupleGet (size : Nat)
  | TupleSet (size : Nat)
  | ArrayGet
  | UncheckedFixedArrayGet (size : Nat)
  | GetGlobalVar (idx : Nat)
  | SetGlobalVar (idx : Nat)
  | Return

/-- An instruction: opcode plus optional immediate (mavm.rs absent; the
debug-info slot carries no semantics and is omitted). -/
structure Instruction where
  opcode : Opcode
  immediate : Option Value

/-- ExecutionError from emulator.rs. -/
inductive ExecutionError where
  | StoppedErr (why : String)
  | Wrapped (why : String) (inner : ExecutionError)
  | RunningErr (why : String) (pc : CodePt) (val : Option Value)

/-- MachineState from emulator.rs. -/
inductive MachineState where
  | Stopped
  | Error (e : ExecutionError)
  | Running (pc : CodePt)

/-- ExecutionError::new from emulator.rs: the error variant depends on the
machine state at the point of failure. -/
def errNew (why : String) (st : MachineState) (val : Option Value) : ExecutionError :=
  match st with
  | .Stopped => .StoppedErr why
  | .Error e => .Wrapped why e
  | .Running cp => .RunningErr why cp val

/-- Modelled from the spec: the runtime environment fields the emulator
touches, an ordered inbox and a log sink (the era-matching RuntimeEnvironment
with insert_messages and get_all_logs used by run/mod.rs is absent from
src). -/
structure RuntimeEnvironment where
  l1_inbox : List Value
  logs : List Value

/-- Modelled from the spec: a fresh runtime environment with empty inbox and
log sink (RuntimeEnvironment::new as called by run_with_msgs). -/
def RuntimeEnvironment.new : RuntimeEnvironment := ⟨[], []⟩

/-- Modelled from the spec and the round-trip test in run/mod.rs:
insert_messages enqueues each message wrapped in a 2-tuple whose slot 1
holds the message, which is what the Tget 1 in test_inbox_and_log
extracts. -/
def RuntimeEnvironment.insert_messages
    (env : RuntimeEnvironment) (msgs : List Value) : RuntimeEnvironment :=
  { env with l1_inbox := env.l1_inbox ++ msgs.map (fun m => Value.Tuple [Value.none, m]) }

/-- Modelled from the spec: get_all_logs returns the log sink contents. -/
def RuntimeEnvironment.get_all_logs (env : RuntimeEnvironment) : List Value :=
  env.logs

/-- LinkedProgram restricted to the fields the machine consumes (its
exported and imported function tables do not influence execution). -/
structure LinkedProgram where
  code : List Instruction
  static_val : Value

/-- The machine of emulator.rs, with the runtime environment field of the
runtime-capable variant declared as run/emulator.rs (source absent). The
stacks are lists with the top at the head. -/
structure Machine where
  stack : List Value
  aux_stack : List Value
  state : MachineState
  code : List Instruction
  static_val : Value
  register : Value
  runtime_env : RuntimeEnvironment

/-- Machine::new from emulator.rs. -/
def Machine.new (program : LinkedProgram) (env : RuntimeEnvironment) : Machine :=
  ⟨[], [], .Stopped, program.code, program.static_val, Value.none, env⟩

/-- ValueStack::pop: popping an empty stack reports a stack underflow built
from the current machine state. -/
def stackPop (st : MachineState) :
    List Value → Except ExecutionError (Value × List Value)
  | [] => .error (errNew "stack underflow" st Option.none)
  | v :: rest => .ok (v, rest)

/-- ValueStack::pop_codepoint. -/
def pop_codepoint (st : MachineState) (s : List Value) :
    Except ExecutionError (CodePt × List Value) :=
  match stackPop st s with
  | .ok (.CodePoint cp, rest) => .ok (cp, rest)
  | .ok (v, _) => .error (errNew "expected CodePoint on stack" st (some v))
  | .error e => .error e

/-- ValueStack::pop_uint. -/
def pop_uint (st : MachineState) (s : List Value) :
    Except ExecutionError (Nat × List Value) :=
  match stackPop st s with
  | .ok (.Int i, rest) => .ok (i, rest)
  | .ok (v, _) => .error (errNew "expected integer on stack" st (some v))
  | .error e => .error e

/-- ValueStack::pop_usize. -/
def pop_usize (st : MachineState) (s : List Value) :
    Except ExecutionError (Nat × List Value) :=
  match pop_uint st s with
  | .ok (val, rest) =>
    match u256_to_usize val with
    | some u => .ok (u, rest)
    | Option.none => .error (errNew "expected small integer on stack" st (some (.Int val)))
  | .error e => .error e

/-- ValueStack::pop_bool. Note that the source maps every failure of the
inner pop_usize, a stack underflow included, to an expected-bool error with
no attached value. -/
def pop_bool (st : MachineState) (s : List Value) :
    Except ExecutionError (Bool × List Value) :=
  match pop_usize st s with
  | .ok (0, rest) => .ok (false, rest)
  | .ok (1, rest) => .ok (true, rest)
  | .ok (v, _) => .error (errNew "expected bool on stack" st (some (.Int (u256_from_usize v))))
  | .error _ => .error (errNew "expected bool on stack" st Option.none)

/-- ValueStack::pop_tuple. -/
def pop_tuple (st : MachineState) (s : List Value) :
    Except ExecutionError (List Value × List Value) :=
  match stackPop st s with
  | .ok (.Tuple vs, rest) => .ok (vs, rest)
  | .ok (v, _) => .error (errNew "expected tuple on stack" st (some v))
  | .error e => .error e

/-- Outcome of executing one instruction. ok mirrors Ok(true); blocked
mirrors the Ok(false) return of the blocking Inbox (the machine is returned
unchanged up to the already-pushed immediate); err mirrors Err(e); panicked
marks a host-language panic such as the unwrap of a non-Internal pc. -/
inductive StepOutcome where
  | ok (m : Machine)
  | blocked (m : Machine)
  | err (e : ExecutionError)
  | panicked (why : String)

/-- Collapse the error monad used for the stack pops into a StepOutcome. -/
def liftE : Except ExecutionError StepOutcome → StepOutcome
  | .ok o => o
  | .error e => .err e

/-- Modelled from the spec: avm_hash bottoms out in keccak256, an external
cryptographic primitive; it is modelled as a fixed total function because no
claim verified here depends on hash values, only on the stack discipline of
the hashing opcodes. -/
def avm_hash (_ : Value) : Value := .Int 0

/-- Modelled from the spec: avm_hash2, same remark as avm_hash. -/
def avm_hash2 (_ _ : Value) : Value := .Int 0

/-- Opcode dispatch of Machine::run_one from emulator.rs, for a machine in
state Running (Internal p) whose instruction at p is insn. The immediate, if
present, is pushed before the opcode effect. Inbox and Log follow the spec
(run/emulator.rs absent): Inbox pushes the head of the inbox queue or blocks
on an empty inbox without advancing pc; Log pops one value and appends it to
the log sink. -/
def dispatch (m : Machine) (p : Nat) (insn : Instruction) : StepOutcome :=
  let pc := CodePt.Internal p
  let st := MachineState.Running pc
  let nextState := MachineState.Running (CodePt.Internal (p + 1))
  let s0 : List Value :=
    match insn.immediate with
    | some v => v :: m.stack
    | Option.none => m.stack
  liftE <|
  match insn.opcode with
  | .Noop =>
    pure (.ok { m with stack := s0, state := nextState })
  | .Panic => throw (errNew "panicked" st Option.none)
  | .Jump => do
    let (cp, s1) ← pop_codepoint st s0
    pure (.ok { m with stack := s1, state := .Running cp })
  | .Cjump => do
    let (cp, s1) ← pop_codepoint st s0
    let (cond, s2) ← pop_bool st s1
    if cond then
      pure (.ok { m with stack := s2, state := .Running cp })
    else
      pure (.ok { m with stack := s2, state := nextState })
  | .GetPC =>
    pure (.ok { m with stack := .CodePoint pc :: s0, state := nextState })
  | .Rget =>
    pure (.ok { m with stack := m.register :: s0, state := nextState })
  | .Rset => do
    let (val, s1) ← stackPop st s0
    pure (.ok { m with stack := s1, register := val, state := nextState })
  | .PushStatic =>
    pure (.ok { m with stack := m.static_val :: s0, state := nextState })
  | .Tset => do
    let (idx, s1) ← pop_usize st s0
    let (tup, s2) ← pop_tuple st s1
    let (val, s3) ← stackPop st s2
    if idx < tup.length then
      pure (.ok { m with stack := .Tuple (tup.set idx val) :: s3, state := nextState })
    else
      throw (errNew "index out of bounds in Tset" st Option.none)
  | .Tget => do
    let (idx, s1) ← pop_usize st s0
    let (tup, s2) ← pop_tuple st s1
    if h : idx < tup.length then
      pure (.ok { m with stack := tup.get ⟨idx, h⟩ :: s2, state := nextState })
    else
      throw (errNew "index out of bounds in Tget" st Option.none)
  | .Pop => do
    let (_, s1) ← stackPop st s0
    pure (.ok { m with stack := s1, state := nextState })
  | .AuxPush => do
    let (val, s1) ← stackPop st s0
    pure (.ok { m with stack := s1, aux_stack := val :: m.aux_stack, state := nextState })
  | .AuxPop => do
    let (val, a1) ← stackPop st m.aux_stack
    pure (.ok { m with stack := val :: s0, aux_stack := a1, state := nextState })
  | .Xget => do
    let (slot_num, s1) ← pop_usize st s0
    match m.aux_stack.head? with
    | Option.none => throw (errNew "aux stack underflow" st Option.none)
    | some auxTop =>
      match auxTop with
      | .Tuple v =>
        match v.get? slot_num with
        | some val => pure (.ok { m with stack := val :: s1, state := nextState })
        | Option.none => throw (errNew "tuple access out of bounds" st Option.none)
      | _ => throw (errNew "expected tuple on aux stack" st (some auxTop))
  | .Xset => do
    let (slot_num, s1) ← pop_usize st s0
    let (tup, a1) ← pop_tuple st m.aux_stack
    if slot_num < tup.length then do
      let (val, s2) ← stackPop st s1
      pure (.ok { m with
        stack := s2, aux_stack := .Tuple (tup.set slot_num val) :: a1, state := nextState })
    else
      throw (errNew "tuple access out of bounds" st Option.none)
  | .Dup0 => do
    let (top, s1) ← stackPop st s0
    pure (.ok { m with stack := top :: top :: s1, state := nextState })
  | .Dup1 => do
    let (top, s1) ← stackPop st s0
    let (snd, s2) ← stackPop st s1
    pure (.ok { m with stack := snd :: top :: snd :: s2, state := nextState })
  | .Dup2 => do
    let (top, s1) ← stackPop st s0
    let (snd, s2) ← stackPop st s1
    let (trd, s3) ← stackPop st s2
    pure (.ok { m with stack := trd :: top :: snd :: trd :: s3, state := nextState })
  | .Swap1 => do
    let (top, s1) ← stackPop st s0
    let (snd, s2) ← stackPop st s1
    pure (.ok { m with stack := snd :: top :: s2, state := nextState })
  | .Swap2 => do
    let (top, s1) ← stackPop st s0
    let (snd, s2) ← stackPop st s1
    let (trd, s3) ← stackPop st s2
    pure (.ok { m with stack := trd :: snd :: top :: s3, state := nextState })
  | .Not => do
    let (b, s1) ← pop_bool st s0
    let res : Nat := if b then 0 else 1
    pure (.ok { m with stack := .Int (u256_from_usize res) :: s1, state := nextState })
  | .UnaryMinus => do
    let (a, s1) ← pop_uint st s0
    match u256_unary_minus a with
    | some x => pure (.ok { m with stack := .Int x :: s1, state := nextState })
    | Option.none => throw (errNew "signed integer overflow in unary minus" st Option.none)
  | .BitwiseNeg => do
    let (a, s1) ← pop_uint st s0
    pure (.ok { m with stack := .Int (u256_neg a) :: s1, state := nextState })
  | .Hash => do
    let (v, s1) ← stackPop st s0
    pure (.ok { m with stack := avm_hash v :: s1, state := nextState })
  | .Hash2 => do
    let (r1, s1) ← stackPop st s0
    let (r2, s2) ← stackPop st s1
    pure (.ok { m with stack := avm_hash2 r1 r2 :: s2, state := nextState })
  | .Len => do
    let (tup, s1) ← pop_tuple st s0
    pure (.ok { m with stack := .Int (u256_from_usize tup.length) :: s1, state := nextState })
  | .Plus => do
    let (r1, s1) ← pop_uint st s0
    let (r2, s2) ← pop_uint st s1
    pure (.ok { m with stack := .Int (u256_add r1 r2) :: s2, state := nextState })
  | .Minus => do
    let (r1, s1) ← pop_uint st s0
    let (r2, s2) ← pop_uint st s1
    pure (.ok { m with stack := .Int (u256_sub r1 r2) :: s2, state := nextState })
  | .Mul => do
    let (r1, s1) ← pop_uint st s0
    let (r2, s2) ← pop_uint st s1
    pure (.ok { m with stack := .Int (u256_mul r1 r2) :: s2, state := nextState })
  | .Div => do
    let (r1, s1) ← pop_uint st s0
    let (r2, s2) ← pop_uint st s1
    match u256_div r1 r2 with
    | some res => pure (.ok { m with stack := .Int res :: s2, state := nextState })
    | Option.none => throw (errNew "divide by zero" st Option.none)
  | .Mod => do
    let (r1, s1) ← pop_uint st s0
    let (r2, s2) ← pop_uint st s1
    match u256_modulo r1 r2 with
    | some res => pure (.ok { m with stack := .Int res :: s2, state := nextState })
    | Option.none => throw (errNew "modulo by zero" st Option.none)
  | .Sdiv => do
    let (r1, s1) ← pop_uint st s0
    let (r2, s2) ← pop_uint st s1
    match u256_sdiv r1 r2 with
    | some res => pure (.ok { m with stack := .Int res :: s2, state := nextState })
    | Option.none => throw (errNew "divide by zero" st Option.none)
  | .Smod => do
    let (r1, s1) ← pop_uint st s0
    let (r2, s2) ← pop_uint st s1
    match u256_smodulo r1 r2 with
    | some res => pure (.ok { m with stack := .Int res :: s2, state := nextState })
    | Option.none => throw (errNew "modulo by zero" st Option.none)
  | .AddMod => do
    let (r1, s1) ← pop_uint st s0
    let (r2, s2) ← pop_uint st s1
    let (r3, s3) ← pop_uint st s2
    match u256_add_mod r1 r2 r3 with
    | some res => pure (.ok { m with stack := .Int res :: s3, state := nextState })
    | Option.none => throw (errNew "modulo by zero" st Option.none)
  | .MulMod => do
    let (r1, s1) ← pop_uint st s0
    let (r2, s2) ← pop_uint st s1
    let (r3, s3) ← pop_uint st s2
    match u256_mul_mod r1 r2 r3 with
    | some res => pure (.ok { m with stack := .Int res :: s3, state := nextState })
    | Option.none => throw (errNew "modulo by zero" st Option.none)
  | .Exp => do
    let (r1, s1) ← pop_uint st s0
    let (r2, s2) ← pop_uint st s1
    pure (.ok { m with stack := .Int (u256_exp r1 r2) :: s2, state := nextState })
  | .LessThan => do
    let (r1, s1) ← pop_uint st s0
    let (r2, s2) ← pop_uint st s1
    let res : Nat := if r1 < r2 then 1 else 0
    pure (.ok { m with stack := .Int (u256_from_usize res) :: s2, state := nextState })
  | .GreaterThan => do
    let (r1, s1) ← pop_uint st s0
    let (r2, s2) ← pop_uint st s1
    let res : Nat := if r1 > r2 then 1 else 0
    pure (.ok { m with stack := .Int (u256_from_usize res) :: s2, state := nextState })
  | .SLessThan => do
    let (r1, s1) ← pop_uint st s0
    let (r2, s2) ← pop_uint st s1
    let res : Nat := if u256_s_less_than r1 r2 then 1 else 0
    pure (.ok { m with stack := .Int (u256_from_usize res) :: s2, state := nextState })
  | .SGreaterThan => do
    let (r1, s1) ← pop_uint st s0
    let (r2, s2) ← pop_uint st s1
    let res : Nat := if u256_s_less_than r2 r1 then 1 else 0
    pure (.ok { m with stack := .Int (u256_from_usize res) :: s2, state := nextState })
  | .Equal => do
    let (r1, s1) ← stackPop st s0
    let (r2, s2) ← stackPop st s1
    let res : Nat := if Value.beq r1 r2 then 1 else 0
    pure (.ok { m with stack := .Int (u256_from_usize res) :: s2, state := nextState })
  | .NotEqual => do
    let (r1, s1) ← stackPop st s0
    let (r2, s2) ← stackPop st s1
    let res : Nat := if Value.beq r1 r2 then 0 else 1
    pure (.ok { m with stack := .Int (u256_from_usize res) :: s2, state := nextState })
  | .BitwiseAnd => do
    let (r1, s1) ← pop_uint st s0
    let (r2, s2) ← pop_uint st s1
    pure (.ok { m with stack := .Int (u256_and r1 r2) :: s2, state := nextState })
  | .BitwiseOr => do
    let (r1, s1) ← pop_uint st s0
    let (r2, s2) ← pop_uint st s1
    pure (.ok { m with stack := .Int (u256_or r1 r2) :: s2, state := nextState })
  | .BitwiseXor => do
    let (r1, s1) ← pop_uint st s0
    let (r2, s2) ← pop_uint st s1
    pure (.ok { m with stack := .Int (u256_xor r1 r2) :: s2, state := nextState })
  | .Byte => do
    let (r1, s1) ← pop_uint st s0
    let (r2, s2) ← pop_uint st s1
    if r1 < u256_from_usize 32 then
      -- shift_factor is one().exp(8*(31 - r1)); the to_usize unwrap on r1
      -- always succeeds here because r1 < 32
      let shift_factor := u256_exp 1 (8 * (31 - r1))
      match u256_div r2 shift_factor with
      | some q =>
        pure (.ok { m with
          stack := .Int (u256_and q (u256_from_usize 255)) :: s2, state := nextState })
      | Option.none =>
        -- unwrap of the division result; unreachable since shift_factor is 1
        pure (.panicked "called Option unwrap on a None value")
    else
      pure (.ok { m with stack := .Int 0 :: s2, state := nextState })
  | .SignExtend => do
    let (bnum, s1) ← pop_uint st s0
    let (x, s2) ← pop_uint st s1
    let out : Nat :=
      match u256_to_usize bnum with
      | some ub =>
        if ub > 31 then x
        else
          let t := 248 - ub
          let shifted_bit := u256_exp (u256_from_usize 2) (u256_from_usize t)
          let sign_bit := u256_and x shifted_bit != 0
          let mask := u256_sub shifted_bit 1
          if sign_bit then u256_and x mask else u256_or x (u256_neg mask)
      | Option.none => x
    pure (.ok { m with stack := .Int out :: s2, state := nextState })
  | .LogicalAnd => do
    let (r1, s1) ← pop_bool st s0
    let (r2, s2) ← pop_bool st s1
    pure (.ok { m with stack := .Int (if r1 && r2 then 1 else 0) :: s2, state := nextState })
  | .LogicalOr => do
    let (r1, s1) ← pop_bool st s0
    let (r2, s2) ← pop_bool st s1
    pure (.ok { m with stack := .Int (if r1 || r2 then 1 else 0) :: s2, state := nextState })
  | .DebugPrint => do
    -- the println debug output is dropped by the model
    let (_, s1) ← stackPop st s0
    pure (.ok { m with stack := s1, state := nextState })
  | .Inbox =>
    match m.runtime_env.l1_inbox with
    | [] => pure (.blocked { m with stack := s0 })
    | msg :: rest =>
      pure (.ok { m with
        stack := msg :: s0
        runtime_env := { m.runtime_env with l1_inbox := rest }
        state := nextState })
  | .Log => do
    let (val, s1) ← stackPop st s0
    pure (.ok { m with
      stack := s1
      runtime_env := { m.runtime_env with logs := m.runtime_env.logs ++ [val] }
      state := nextState })
  | .GetLocal | .SetLocal | .MakeFrame _ _ | .Label _ | .PushExternal _
  | .TupleGet _ | .TupleSet _ | .ArrayGet | .UncheckedFixedArrayGet _
  | .GetGlobalVar _ | .SetGlobalVar _ | .Return =>
    -- compile-time opcodes must never reach dispatch
    throw (errNew "invalid opcode" st Option.none)

/-- Machine::run_one from emulator.rs: executes the instruction at the pc of
a Running machine. A non-Internal pc hits the unwrap of pc_if_internal and
is a host panic; a pc outside the code array is an invalid-program-counter
error. -/
def Machine.run_one (m : Machine) : StepOutcome :=
  match m.state with
  | .Running pc =>
    match pc.pc_if_internal with
    | Option.none => .panicked "called Option unwrap on a None value"
    | some p =>
      match m.code.get? p with
      | Option.none => .err (errNew "invalid program counter" (.Running pc) Option.none)
      | some insn => dispatch m p insn
  | st => .err (errNew "tried to run machine that is not runnable" st Option.none)

/-- Result of the run loop: the final machine, or propagation of a host
panic raised by run_one. -/
inductive RunResult where
  | fin (m : Machine)
  | panicked (why : String)

/-- Machine::run from emulator.rs, fuel-indexed to make the while loop a
total function (the fuel never appears in the source and only bounds the
number of iterations): while the state is Running, stop when pc equals
stop_pc, otherwise execute one instruction; an error puts the machine in the
Error state, which ends the loop; a blocked Inbox returns (the Ok(false)
path of the runtime-capable emulator). -/
def Machine.run (m : Machine) (fuel : Nat) (stop_pc : Option CodePt) : RunResult :=
  match fuel with
  | 0 => .fin m
  | f + 1 =>
    match m.state with
    | .Running pc =>
      if stop_pc = some pc then .fin m
      else
        match m.run_one with
        | .ok m2 => m2.run f stop_pc
        | .blocked m2 => .fin m2
        | .err e => .fin { m with state := .Error e }
        | .panicked why => .panicked why
    | _ => .fin m

/-- Final machine state of a run, if the run did not panic. -/
def runFinalState : RunResult → Option MachineState
  | .fin m => some m.state
  | .panicked _ => Option.none

/-- Result of Machine::test_call. The ok constructor carries the final
machine; the stack the source returns is its stack field. -/
inductive CallResult where
  | ok (m : Machine)
  | err (e : ExecutionError)
  | panicked (why : String)

/-- Machine::test_call from emulator.rs: the sentinel stop_pc is the
internal code point code.len() + 1; the argument loop pushes
args[num_args-1-i] for i = 0.., leaving argument 0 on top of the arguments,
and the sentinel code point is pushed above them; then the machine runs from
func_addr until the sentinel, an error, or a stop. -/
def Machine.test_call (m : Machine) (fuel : Nat) (func_addr : CodePt)
    (args : List Value) : CallResult :=
  let stop_pc := CodePt.Internal (m.code.length + 1)
  let m1 : Machine := { m with
    stack := .CodePoint stop_pc :: (args ++ m.stack)
    state := .Running func_addr }
  match m1.run fuel (some stop_pc) with
  | .panicked why => .panicked why
  | .fin m2 =>
    match m2.state with
    | .Stopped => .err (errNew "execution stopped" .Stopped Option.none)
    | .Error e => .err e
    | .Running _ => .ok m2

/-- Result of run_with_msgs from run/mod.rs. -/
inductive MsgsRunResult where
  | ok (logs : List Value)
  | err (e : ExecutionError)
  | panicked (why : String)

/-- run_with_msgs from run/mod.rs: build a fresh runtime environment, insert
the messages, run the program through test_call from Internal 0 with no
arguments, and return all logs on success. -/
def run_with_msgs (prog : LinkedProgram) (in_msgs : List Value) (fuel : Nat) :
    MsgsRunResult :=
  let env := RuntimeEnvironment.new.insert_messages in_msgs
  let machine := Machine.new prog env
  match machine.test_call fuel (.Internal 0) [] with
  | .ok m2 => .ok m2.runtime_env.get_all_logs
  | .err e => .err e
  | .panicked why => .panicked why

/-- Helper of bytestack_build_uint from run/runtime_env.rs: the 32-step
loop, consuming one byte of the chunk per iteration while bytes remain and
shifting in a zero byte afterwards. -/
def buildUintAux : Nat → List Nat → Nat → Nat
  | 0, _, ui => ui
  | k + 1, [], ui => buildUintAux k [] (u256_mul ui 256)
  | k + 1, x :: xs, ui => buildUintAux k xs (u256_add (u256_mul ui 256) x)

/-- bytestack_build_uint from run/runtime_env.rs: pack a chunk of at most 32
bytes into a 256-bit word, big-endian, zero-padded at the low end. -/
def bytestack_build_uint (b : List Nat) : Value :=
  .Int (buildUintAux 32 b 0)

/-- bytestack_from_bytes_2 from run/runtime_env.rs: peel chunks of 32 bytes
from the front, consing each packed chunk onto the accumulator, so the head
of the resulting chain is the last chunk. -/
def bytestack_from_bytes_2 (b : List Nat) (so_far : Value) : Value :=
  if h : b.length > 32 then
    bytestack_from_bytes_2 (b.drop 32)
      (.Tuple [bytestack_build_uint (b.take 32), so_far])
  else
    .Tuple [bytestack_build_uint b, so_far]
termination_by b.length
decreasing_by simp only [List.length_drop]; omega

/-- bytestack_from_bytes from run/runtime_env.rs. -/
def bytestack_from_bytes (b : List Nat) : Value :=
  .Tuple [.Int (u256_from_usize b.length), bytestack_from_bytes_2 b Value.none]

/-- The byte-extraction loop of bytes_from_bytestack_2: k iterations of
taking the low byte and shifting right, least significant byte first. The
source writes this_arr[size-1-i] at iteration i, which is the reverse of
this list. -/
def extractLeBytes : Nat → Nat → List Nat
  | 0, _ => []
  | k + 1, v => v % 256 :: extractLeBytes k (v / 256)

/-- The discarding loop of bytes_from_bytestack_2: k divisions by 256. -/
def dropLowBytes : Nat → Nat → Nat
  | 0, v => v
  | k + 1, v => dropLowBytes k (v / 256)

/-- Deconstruction of a bytestack cell into its packed word and its tail:
the source asserts the cell is a 2-tuple and reads an Int from slot 0;
malformed cells are mapped to Option.none here. -/
def cellParts : Value → Option (Nat × Value)
  | .Tuple [.Int int_val, tail] => some (int_val, tail)
  | _ => Option.none

/-- bytes_from_bytestack_2 from run/runtime_env.rs (spelled with a leading
underscore there; divisions by the nonzero constant 256 are unwrapped in the
source and total here). -/
def bytes_from_bytestack_2 (cell : Value) (nbytes : Nat) : Option (List Nat) :=
  if h0 : nbytes = 0 then
    some []
  else
    match cellParts cell with
    | some (int_val, tail) =>
      if h32 : nbytes % 32 = 0 then
        (bytes_from_bytestack_2 tail (nbytes - 32)).map
          (fun sub_arr => sub_arr ++ (extractLeBytes 32 int_val).reverse)
      else
        (bytes_from_bytestack_2 tail (32 * (nbytes / 32))).map
          (fun sub_arr =>
            let this_size := nbytes % 32
            let shifted := dropLowBytes (32 - this_size) int_val
            sub_arr ++ (extractLeBytes this_size shifted).reverse)
    | Option.none => Option.none
termination_by nbytes
decreasing_by
  · omega
  · have : nbytes % 32 ≠ 0 := h32
    omega

/-- bytes_from_bytestack from run/runtime_env.rs (spelled with a leading
underscore there). -/
def bytes_from_bytestack (bs : Value) : Option (List Nat) :=
  match bs with
  | .Tuple [.Int ui, tail] =>
    match u256_to_usize ui with
    | some nbytes => bytes_from_bytestack_2 tail nbytes
    | Option.none => Option.none
  | _ => Option.none

/-- TUPLE_SIZE from link/xformcode.rs (source absent; value fixed by the
spec). -/
def TUPLE_SIZE : Nat := 8

/-- Modelled from the spec: make_uninitialized_tuple from link/xformcode.rs
(source absent) builds the smallest TUPLE_SIZE-ary tree of Value.none leaves
holding n leaves, the shape of the global frame. -/
def make_uninitialized_tuple (n : Nat) : Value :=
  if h : n ≤ TUPLE_SIZE then
    .Tuple (List.replicate n Value.none)
  else
    .Tuple (List.replicate TUPLE_SIZE
      (make_uninitialized_tuple ((n + TUPLE_SIZE - 1) / TUPLE_SIZE)))
termination_by n
decreasing_by simp only [TUPLE_SIZE] at *; omega

/-- Modelled from the spec: code-point relocation shifts Internal by
int_offset and External by ext_offset (mavm.rs absent). -/
def CodePt.relocate (int_offset ext_offset : Nat) : CodePt → CodePt
  | .Internal pc => .Internal (pc + int_offset)
  | .External slot => .External (slot + ext_offset)
  | .InSegment seg off => .InSegment seg off

/-- Modelled from the spec: label relocation shifts Func ids by func_offset,
propagating the maximum reached id, and External slots by ext_offset
(mavm.rs absent). -/
def AvmLabel.relocate (ext_offset func_offset : Nat) : AvmLabel → AvmLabel × Nat
  | .Func id => (.Func (id + func_offset), id + func_offset)
  | .External slot => (.External (slot + ext_offset), 0)
  | .Anon id => (.Anon id, 0)
  | .Evm id => (.Evm id, 0)

mutual
/-- Modelled from the spec: relocation of a value shifts every embedded code
point and label, returning the relocated value together with the maximum
func offset reached (mavm.rs absent). -/
def Value.relocate (int_offset ext_offset func_offset : Nat) :
    Value → Value × Nat
  | .Int n => (.Int n, 0)
  | .CodePoint cp => (.CodePoint (cp.relocate int_offset ext_offset), 0)
  | .Buffer bs => (.Buffer bs, 0)
  | .Label l =>
    let (l2, nf) := l.relocate ext_offset func_offset
    (.Label l2, nf)
  | .Tuple vs =>
    let (vs2, nf) := Value.relocateList int_offset ext_offset func_offset vs
    (.Tuple vs2, nf)

/-- Relocation mapped over the elements of a tuple. -/
def Value.relocateList (int_offset ext_offset func_offset : Nat) :
    List Value → List Value × Nat
  | [] => ([], 0)
  | v :: rest =>
    let (v2, f1) := v.relocate int_offset ext_offset func_offset
    let (rest2, f2) := Value.relocateList int_offset ext_offset func_offset rest
    (v2 :: rest2, max f1 f2)
end

/-- Modelled from the spec: instruction relocation (mavm.rs absent; the
global-offset parameter belongs to the linker era of link/mod.rs, whose
CompiledProgram::relocate with a globals offset is also absent): the
immediate is relocated, label opcodes are relocated, global-variable
opcodes shift by the globals offset, and the maximum func offset reached is
returned. -/
def Instruction.relocate (insn : Instruction)
    (int_offset ext_offset func_offset globals_offset : Nat) : Instruction × Nat :=
  let immPair : Option Value × Nat :=
    match insn.immediate with
    | some v =>
      let (v2, nf) := v.relocate int_offset ext_offset func_offset
      (some v2, nf)
    | Option.none => (Option.none, 0)
  match insn.opcode with
  | .Label l =>
    let (l2, nf2) := l.relocate ext_offset func_offset
    (⟨.Label l2, immPair.fst⟩, max immPair.snd nf2)
  | .GetGlobalVar n => (⟨.GetGlobalVar (n + globals_offset), immPair.fst⟩, immPair.snd)
  | .SetGlobalVar n => (⟨.SetGlobalVar (n + globals_offset), immPair.fst⟩, immPair.snd)
  | .PushExternal slot => (⟨.PushExternal (slot + ext_offset), immPair.fst⟩, immPair.snd)
  | op => (⟨op, immPair.fst⟩, immPair.snd)

/-- ExportedFunc restricted to the fields the linker logic depends on; its
type is used only for a printed warning and is omitted. -/
structure ExportedFunc where
  name : String
  label : AvmLabel

/-- ExportedFunc::relocate from link/mod.rs. -/
def ExportedFunc.relocate (e : ExportedFunc) (ext_offset func_offset : Nat) :
    ExportedFunc × Nat :=
  let (l2, nf) := e.label.relocate ext_offset func_offset
  (⟨e.name, l2⟩, nf)

/-- ImportedFunc restricted to the fields the linker logic depends on; the
argument and return types feed only a printed warning. -/
structure ImportedFunc where
  name : String
  slot_num : Nat

/-- ImportedFunc::relocate from link/mod.rs: the slot number shifts by the
external offset. -/
def ImportedFunc.relocate (i : ImportedFunc) (ext_offset : Nat) : ImportedFunc :=
  ⟨i.name, i.slot_num + ext_offset⟩

/-- CompiledProgram of the linker era of link/mod.rs (the version in
compile.rs predates the global_num_limit field that link/mod.rs reads; the
source-file map carries no link semantics and is omitted). -/
structure CompiledProgram where
  code : List Instruction
  exported_funcs : List ExportedFunc
  imported_funcs : List ImportedFunc
  global_num_limit : Nat

/-- CompiledProgram::relocate, following the loop structure of the version
in compile.rs extended with the globals offset that link/mod.rs passes
(that extended source is absent): relocate every instruction and exported
function, accumulate the maximum func offset starting from 0, shift the
imported slots, and shift the global limit by the globals offset. -/
def CompiledProgram.relocate (p : CompiledProgram)
    (int_offset ext_offset func_offset globals_offset : Nat) :
    CompiledProgram × Nat :=
  let relocInsns :=
    p.code.map (fun insn => insn.relocate int_offset ext_offset func_offset globals_offset)
  let maxAfterCode := relocInsns.foldl (fun acc pr => max acc pr.snd) 0
  let relocExps := p.exported_funcs.map (fun e => e.relocate ext_offset func_offset)
  let maxAfterExps := relocExps.foldl (fun acc pr => max acc pr.snd) maxAfterCode
  (⟨relocInsns.map (·.fst),
    relocExps.map (·.fst),
    p.imported_funcs.map (fun i => i.relocate ext_offset),
    p.global_num_limit + globals_offset⟩,
   maxAfterExps)

/-- The first loop of link from link/mod.rs: running (insns_so_far,
imports_so_far) offsets per program, with insns_so_far starting at 1 to
leave one instruction of space for global initialization. -/
def link_offsets : List CompiledProgram → Nat → Nat → List (Nat × Nat)
  | [], _, _ => []
  | p :: ps, insns_so_far, imports_so_far =>
    (insns_so_far, imports_so_far) ::
      link_offsets ps (insns_so_far + p.code.length)
        (imports_so_far + p.imported_funcs.length)

/-- Pairing of each program with its precomputed offsets, the shape the
relocation loop of link consumes. -/
def zipOffsets : List CompiledProgram → List (Nat × Nat) →
    List (CompiledProgram × (Nat × Nat))
  | p :: ps, o :: os => (p, o) :: zipOffsets ps os
  | _, _ => []

/-- The second loop of link from link/mod.rs: relocate each program with its
offsets, threading the func offset and the running global_num_limit; returns
the relocated programs and the final global_num_limit. -/
def relocate_progs : List (CompiledProgram × (Nat × Nat)) → Nat → Nat →
    List CompiledProgram × Nat
  | [], _, glob => ([], glob)
  | (p, (io, eo)) :: rest, func_offset, glob =>
    let (rp, new_func_offset) := p.relocate io eo func_offset glob
    let (rest2, glob2) := relocate_progs rest new_func_offset rp.global_num_limit
    (rp :: rest2, glob2)

/-- The relocated program list built by link for a given full program list
(the list already including the auto-appended builtins, since
add_auto_link_progs reads them from disk). -/
def link_relocated (progs : List CompiledProgram) : List CompiledProgram :=
  (relocate_progs (zipOffsets progs (link_offsets progs 1 0)) 0 0).fst

/-- The final global_num_limit accumulated by the relocation loop of link. -/
def link_global_limit (progs : List CompiledProgram) : Nat :=
  (relocate_progs (zipOffsets progs (link_offsets progs 1 0)) 0 0).snd

/-- The concatenated exports of the relocated programs. -/
def link_exports (progs : List CompiledProgram) : List ExportedFunc :=
  ((link_relocated progs).map (·.exported_funcs)).flatten

/-- The concatenated imports of the relocated programs. -/
def link_imports (progs : List CompiledProgram) : List ImportedFunc :=
  ((link_relocated progs).map (·.imported_funcs)).flatten

/-- The export map of link: name to label, later insertions shadowing
earlier ones as in the source hash map, modelled by consing at the front. -/
def link_exports_map (progs : List CompiledProgram) : List (String × AvmLabel) :=
  (link_exports progs).foldl (fun acc e => (e.name, e.label) :: acc) []

/-- Hash-map lookup modelled on the front-consed association list. -/
def assocFind (map : List (String × AvmLabel)) (name : String) : Option AvmLabel :=
  (map.find? (fun pr => pr.fst == name)).map (·.snd)

/-- The label translation map of link: for each import whose name has an
export, External(slot_num) maps to the exported label (the type comparison
in the source only prints a warning and does not alter the map). -/
def link_xlate_map (progs : List CompiledProgram) : List (AvmLabel × AvmLabel) :=
  (link_imports progs).foldl
    (fun acc imp =>
      match assocFind (link_exports_map progs) imp.name with
      | some lbl => (AvmLabel.External imp.slot_num, lbl) :: acc
      | Option.none => acc)
    []

/-- Lookup in the label translation map. -/
def labelFind (map : List (AvmLabel × AvmLabel)) (l : AvmLabel) : Option AvmLabel :=
  (map.find? (fun pr => pr.fst == l)).map (·.snd)

/-- Modelled from the spec: Instruction::xlate_labels rewrites every label
in the immediate through the translation map, leaving unmapped labels in
place (mavm.rs absent). -/
def Value.xlate (map : List (AvmLabel × AvmLabel)) : Value → Value
  | .Int n => .Int n
  | .CodePoint cp => .CodePoint cp
  | .Buffer bs => .Buffer bs
  | .Label l =>
    match labelFind map l with
    | some l2 => .Label l2
    | Option.none => .Label l
  | .Tuple vs => .Tuple (vs.attach.map (fun x => Value.xlate map x.val))
decreasing_by
  simp_wf
  have h := List.sizeOf_lt_of_mem x.property
  omega

/-- Instruction::xlate_labels applied to the immediate. -/
def Instruction.xlate (map : List (AvmLabel × AvmLabel)) (insn : Instruction) :
    Instruction :=
  ⟨insn.opcode, insn.immediate.map (Value.xlate map)⟩

/-- link from link/mod.rs, taking the full program list (add_auto_link_progs
appends the builtin programs read from disk, so the quantification over
progs here ranges over the already-completed list): prepend the Rset
global-initialization instruction, concatenate the relocated programs, and
translate external labels to their exported labels. -/
def link (progs : List CompiledProgram) : CompiledProgram :=
  let linked_code : List Instruction :=
    ⟨.Rset, some (make_uninitialized_tuple (link_global_limit progs))⟩ ::
      ((link_relocated progs).map (·.code)).flatten
  ⟨linked_code.map (Instruction.xlate (link_xlate_map progs)),
   link_exports progs,
   link_imports progs,
   link_global_limit progs⟩

/-- Sum of the global counts of all programs. -/
def sumGlobals (progs : List CompiledProgram) : Nat :=
  (progs.map (·.global_num_limit)).sum

/-- Closed-form description of the merged code after the initialization
instruction: the code of program i, instruction-relocated with internal
offset 1 plus the total code length of all preceding programs, external
offset the total import count of the preceding programs, the threaded func
offset, and globals offset the total global count of the preceding
programs, then label-translated. -/
def closedSegs (xm : List (AvmLabel × AvmLabel)) :
    List CompiledProgram → Nat → Nat → Nat → Nat → List Instruction
  | [], _, _, _, _ => []
  | p :: ps, io, eo, fo, go =>
    (p.code.map (fun insn => Instruction.xlate xm (insn.relocate io eo fo go).fst)) ++
      closedSegs xm ps (io + p.code.length) (eo + p.imported_funcs.length)
        (p.relocate io eo fo go).snd (go + p.global_num_limit)

/-- The compile-time-only opcodes, the group dispatched to the
invalid-opcode error in Machine::run_one. -/
def isCompileTimeOp : Opcode → Bool
  | .GetLocal | .SetLocal | .MakeFrame _ _ | .Label _ | .PushExternal _
  | .TupleGet _ | .TupleSet _ | .ArrayGet | .UncheckedFixedArrayGet _
  | .GetGlobalVar _ | .SetGlobalVar _ | .Return => true
  | _ => false

/-- A one-instruction machine with both stacks empty, used to probe the
underflow behaviour of each opcode. -/
def opOnEmpty (op : Opcode) : Machine :=
  ⟨[], [], .Running (.Internal 0), [⟨op, Option.none⟩], Value.none, Value.none, ⟨[], []⟩⟩

/-- The runtime opcodes whose effect pops at least one value from the
primary or aux stack, so that executing them on empty stacks must report an
underflow. -/
def poppingOps : List Opcode :=
  [.Jump, .Cjump, .Rset, .Tset, .Tget, .Pop, .AuxPush, .AuxPop, .Xget, .Xset,
   .Dup0, .Dup1, .Dup2, .Swap1, .Swap2,
   .Not, .UnaryMinus, .BitwiseNeg, .Hash, .Hash2, .Len,
   .Plus, .Minus, .Mul, .Div, .Mod, .Sdiv, .Smod, .AddMod, .MulMod, .Exp,
   .LessThan, .GreaterThan, .SLessThan, .SGreaterThan, .Equal, .NotEqual,
   .BitwiseAnd, .BitwiseOr, .BitwiseXor, .Byte, .SignExtend,
   .LogicalAnd, .LogicalOr, .DebugPrint, .Log]

/-- The reason string an underflowing opcode reports: the opcodes whose
first pop is pop_bool swallow the underflow into an expected-bool error; the
rest surface the stack underflow of ValueStack::pop. -/
def underflowReason : Opcode → String
  | .Not | .LogicalAnd | .LogicalOr => "expected bool on stack"
  | _ => "stack underflow"

/-- Check that an opcode run on empty stacks reports exactly the expected
underflow error at pc 0 with no attached value. -/
def checkUnderflow (op : Opcode) : Bool :=
  match (opOnEmpty op).run_one with
  | .err (.RunningErr why (.Internal 0) Option.none) => why == underflowReason op
  | _ => false

/-- Reason string carried by an error outcome, if any. -/
def errReason : StepOutcome → Option String
  | .err (.StoppedErr why) => some why
  | .err (.Wrapped why _) => some why
  | .err (.RunningErr why _ _) => some why
  | _ => Option.none

/-- Whether a step outcome is a reported execution error. -/
def isErrOutcome : StepOutcome → Bool
  | .err _ => true
  | _ => false

/-- The program of test_inbox_and_log in run/mod.rs:
Inbox; Tget imm 1; Log; Inbox. -/
def c1_code : List Instruction :=
  [⟨.Inbox, Option.none⟩, ⟨.Tget, some (.Int 1)⟩, ⟨.Log, Option.none⟩, ⟨.Inbox, Option.none⟩]

/-- The linked program of test_inbox_and_log. -/
def c1_prog : LinkedProgram := ⟨c1_code, Value.none⟩

/-- A machine about to execute Byte on i = 0 over x = 2^248, the word whose
most-significant byte is 1. -/
def byteMachine : Machine :=
  ⟨[.Int 0, .Int (2 ^ 248)], [], .Running (.Internal 0), [⟨.Byte, Option.none⟩],
   Value.none, Value.none, ⟨[], []⟩⟩

/-- A machine about to execute SignExtend on bnum = 0 over x = 0. -/
def signExtendMachine : Machine :=
  ⟨[.Int 0, .Int 0], [], .Running (.Internal 0), [⟨.SignExtend, Option.none⟩],
   Value.none, Value.none, ⟨[], []⟩⟩

/-- The add-two-constants machine of end-to-end scenario B: code
Push 2; Push 3; Plus (a push is a Noop with an immediate). -/
def addProgMachine : Machine :=
  Machine.new ⟨[⟨.Noop, some (.Int 2)⟩, ⟨.Noop, some (.Int 3)⟩, ⟨.Plus, Option.none⟩],
    Value.none⟩ RuntimeEnvironment.new

/-- A machine whose pc is an External code point. -/
def extPcMachine : Machine :=
  ⟨[], [], .Running (.External 0), [⟨.Noop, Option.none⟩],
   Value.none, Value.none, ⟨[], []⟩⟩

/-- The divide-by-zero machine of end-to-end scenario D: code
Push 0; Push 10; Div. -/
def divProgMachine : Machine :=
  ⟨[], [], .Running (.Internal 0),
   [⟨.Noop, some (.Int 0)⟩, ⟨.Noop, some (.Int 10)⟩, ⟨.Div, Option.none⟩],
   Value.none, Value.none, ⟨[], []⟩⟩

/-- A machine executing Xget with a valid slot index on the primary stack
but an empty aux stack. -/
def xgetAuxMachine : Machine :=
  ⟨[.Int 0], [], .Running (.Internal 0), [⟨.Xget, Option.none⟩],
   Value.none, Value.none, ⟨[], []⟩⟩

/-- Little-endian base-256 value of a digit list. -/
def leVal : List Nat → Nat
  | [] => 0
  | d :: ds => d + 256 * leVal ds

set_option maxRecDepth 10000 in
/-- Claim C2, evaluated at the failing input: with i = 0 on top of x = 2^248
(most-significant byte 1), the Byte opcode pushes Int 0 rather than the
most-significant byte, because the shift factor is computed as one().exp(...)
which is always 1, so the opcode always extracts the least-significant byte;
the second conjunct records that the byte the claim specifies is 1. -/
theorem byte_opcode_wrong_byte :
    Machine.run_one byteMachine
      = .ok ⟨[.Int 0], [], .Running (.Internal 1), [⟨.Byte, Option.none⟩],
          Value.none, Value.none, ⟨[], []⟩⟩
    ∧ (2 ^ 248 / 256 ^ 31) % 256 = 1 :=
  ⟨rfl, by decide⟩

set_option maxRecDepth 10000 in
/-- Claim C3, evaluated at the failing input: SignExtend with bnum = 0 over
x = 0 pushes 2^256 - 2^248 (top byte set) instead of 0: the code derives the
sign position as 248 - bnum instead of 8*bnum + 7 and has the two masking
branches swapped, so a clear sign bit sets all high bits. -/
theorem signextend_opcode_wrong_result :
    Machine.run_one signExtendMachine
      = .ok ⟨[.Int (2 ^ 256 - 2 ^ 248)], [], .Running (.Internal 1),
          [⟨.SignExtend, Option.none⟩], Value.none, Value.none, ⟨[], []⟩⟩
    ∧ 2 ^ 256 - 2 ^ 248 ≠ 0 :=
  ⟨rfl, by decide⟩

/-- Claim C4, evaluated at the failing input: test_call places the sentinel
at code.len() + 1, so the add-two-constants program of scenario B, which
has no return jump, falls off the end at pc 3 (the code length) without
hitting the sentinel at 4 and errors with an invalid program counter instead
of returning Int 5; the equality holds for every sufficient fuel. -/
theorem test_call_sentinel_misses :
    ∀ fuel : Nat,
      addProgMachine.test_call (fuel + 4) (.Internal 0) []
        = .err (.RunningErr "invalid program counter" (.Internal 3) Option.none) :=
  fun _ => rfl

/-- Claim C5 counterexample: with the pc set to the External code point 0,
run_one is a host panic (the unwrap of pc_if_internal), not a reported
RunningErr, contrary to the claim that an External pc yields a RunningErr. -/
theorem external_pc_panics :
    Machine.run_one extPcMachine = .panicked "called Option unwrap on a None value"
    ∧ isErrOutcome (Machine.run_one extPcMachine) = false :=
  ⟨rfl, rfl⟩

/-- Claim C5 as amended: a pc indexing outside the code array and a
compile-time opcode reaching dispatch are reported as RunningErr (invalid
program counter / invalid opcode), never host panics, and the run loop then
moves the machine to the Error state and halts; an External pc, by contrast,
is a host panic by design (see the counterexample). -/
theorem malformed_pc_reported :
    (∀ (code : List Instruction) (p : Nat) (s aux : List Value) (sv reg : Value)
        (env : RuntimeEnvironment), code.length ≤ p →
        Machine.run_one ⟨s, aux, .Running (.Internal p), code, sv, reg, env⟩
          = .err (.RunningErr "invalid program counter" (.Internal p) Option.none))
    ∧ (∀ op : Opcode, isCompileTimeOp op = true →
        ∀ (code : List Instruction) (p : Nat) (imm : Option Value) (s aux : List Value)
          (sv reg : Value) (env : RuntimeEnvironment),
          code.get? p = some ⟨op, imm⟩ →
          Machine.run_one ⟨s, aux, .Running (.Internal p), code, sv, reg, env⟩
            = .err (.RunningErr "invalid opcode" (.Internal p) Option.none))
    ∧ (∀ (m : Machine) (e : ExecutionError) (pc : CodePt) (fuel : Nat),
        m.state = .Running pc → m.run_one = .err e →
        m.run (fuel + 1) Option.none = .fin { m with state := .Error e }) := by
  refine ⟨?_, ?_, ?_⟩
  · intro code p s aux sv reg env h
    simp [Machine.run_one, CodePt.pc_if_internal, List.getElem?_eq_none h, errNew]
  · intro op hop
    cases op <;> simp [isCompileTimeOp] at hop <;>
      · intro code p imm s aux sv reg env hcode
        rw [List.get?_eq_getElem?] at hcode
        simp [Machine.run_one, CodePt.pc_if_internal, hcode, dispatch, liftE, errNew]
  · intro m e pc fuel hst he
    simp [Machine.run, hst, he]

/-- Witness for malformed-pc reporting: an out-of-range pc on empty code, a
Return opcode reaching dispatch, and the run loop carrying a Pop underflow
into the Error state. -/
theorem malformed_pc_reported_witness :
    Machine.run_one ⟨[], [], .Running (.Internal 0), [], Value.none, Value.none, ⟨[], []⟩⟩
      = .err (.RunningErr "invalid program counter" (.Internal 0) Option.none)
    ∧ Machine.run_one (opOnEmpty .Return)
      = .err (.RunningErr "invalid opcode" (.Internal 0) Option.none)
    ∧ (opOnEmpty .Pop).run 1 Option.none
      = .fin { opOnEmpty .Pop with
          state := .Error (.RunningErr "stack underflow" (.Internal 0) Option.none) } :=
  ⟨malformed_pc_reported.1 [] 0 [] [] Value.none Value.none ⟨[], []⟩ (by decide),
   malformed_pc_reported.2.1 .Return rfl [⟨.Return, Option.none⟩] 0 Option.none [] []
     Value.none Value.none ⟨[], []⟩ rfl,
   malformed_pc_reported.2.2 (opOnEmpty .Pop)
     (.RunningErr "stack underflow" (.Internal 0) Option.none) (.Internal 0) 0 rfl rfl⟩

/-- Claim C6: Div with a nonzero divisor (the second value popped) pushes
the floor quotient and advances pc by one, and the divide-by-zero program of
scenario D halts in the Error state with RunningErr at the pc of the Div
instruction. -/
theorem div_quotient_and_zero_error :
    (∀ (code : List Instruction) (p a b : Nat) (rest aux : List Value) (sv reg : Value)
        (env : RuntimeEnvironment),
        code.get? p = some ⟨.Div, Option.none⟩ → b ≠ 0 →
        Machine.run_one ⟨.Int a :: .Int b :: rest, aux, .Running (.Internal p), code, sv, reg, env⟩
          = .ok ⟨.Int (a / b) :: rest, aux, .Running (.Internal (p + 1)), code, sv, reg, env⟩)
    ∧ (∀ fuel : Nat,
        runFinalState (divProgMachine.run (fuel + 3) Option.none)
          = some (.Error (.RunningErr "divide by zero" (.Internal 2) Option.none))) := by
  constructor
  · intro code p a b rest aux sv reg env hcode hb
    rw [List.get?_eq_getElem?] at hcode
    simp [Machine.run_one, CodePt.pc_if_internal, hcode, dispatch, liftE,
      pop_uint, stackPop, u256_div, hb, Except.bind, Except.pure, Bind.bind, Pure.pure]
  · intro fuel
    rfl

/-- Witness for the Div theorem: 10 / 2 at pc 0 pushes 5, and the concrete
divide-by-zero run errors. -/
theorem div_quotient_witness :
    Machine.run_one ⟨[.Int 10, .Int 2], [], .Running (.Internal 0), [⟨.Div, Option.none⟩],
        Value.none, Value.none, ⟨[], []⟩⟩
      = .ok ⟨[.Int 5], [], .Running (.Internal 1), [⟨.Div, Option.none⟩],
          Value.none, Value.none, ⟨[], []⟩⟩
    ∧ runFinalState (divProgMachine.run 3 Option.none)
      = some (.Error (.RunningErr "divide by zero" (.Internal 2) Option.none)) :=
  ⟨div_quotient_and_zero_error.1 [⟨.Div, Option.none⟩] 0 10 2 [] [] Value.none Value.none
     ⟨[], []⟩ rfl (by decide),
   div_quotient_and_zero_error.2 0⟩

/-- Claim C1: with the inbox holding exactly the single message Int 3 (and
any prior log contents L), the program Inbox; Tget 1; Log; Inbox run from pc
0 terminates for every sufficient fuel with exactly one new log record equal
to Int 3, and the second Inbox blocks: the machine stops in the Running
state at pc 3, neither advancing pc nor entering the Error state; through
the run_with_msgs harness the run returns exactly the logs [Int 3]. -/
theorem inbox_program_logs_once_then_blocks :
    ∀ (fuel : Nat) (s0 xs L : List Value) (sv reg : Value),
      Machine.run
        ⟨s0, xs, .Running (.Internal 0), c1_code, sv, reg,
          RuntimeEnvironment.insert_messages ⟨[], L⟩ [.Int 3]⟩
        (fuel + 4) Option.none
        = .fin ⟨s0, xs, .Running (.Internal 3), c1_code, sv, reg, ⟨[], L ++ [.Int 3]⟩⟩
      ∧ run_with_msgs c1_prog [.Int 3] (fuel + 4) = .ok [.Int 3] :=
  fun _ _ _ _ _ _ => ⟨rfl, rfl⟩

/-- Claim C9: Xget with an integer slot on top of the primary stack and a
tuple of arity above the slot on top of the aux stack pops only the slot
index, pushes element slot of the aux-top tuple on the primary stack,
advances pc by one, and leaves the aux stack, its top tuple included,
entirely unchanged. -/
theorem xget_leaves_aux_unchanged :
    ∀ (code : List Instruction) (p slot : Nat) (vs rest auxRest : List Value)
      (sv reg : Value) (env : RuntimeEnvironment),
      code.get? p = some ⟨.Xget, Option.none⟩ →
      slot < 2 ^ 64 →
      ∀ hlen : slot < vs.length,
      Machine.run_one
        ⟨.Int slot :: rest, .Tuple vs :: auxRest, .Running (.Internal p), code, sv, reg, env⟩
        = .ok ⟨vs.get ⟨slot, hlen⟩ :: rest, .Tuple vs :: auxRest,
            .Running (.Internal (p + 1)), code, sv, reg, env⟩ := by
  intro code p slot vs rest auxRest sv reg env hcode hslot hlen
  rw [List.get?_eq_getElem?] at hcode
  have hslot2 : slot < 18446744073709551616 := by omega
  simp [Machine.run_one, CodePt.pc_if_internal, hcode, dispatch, liftE,
    pop_usize, pop_uint, stackPop, u256_to_usize, hslot2,
    Except.bind, Except.pure, Bind.bind, Pure.pure,
    List.get?_eq_getElem?, List.getElem?_eq_getElem hlen, List.get_eq_getElem]

/-- Witness for the Xget theorem: slot 1 of the aux-top pair is extracted
and the aux stack survives unchanged. -/
theorem xget_leaves_aux_unchanged_witness :
    Machine.run_one
      ⟨[.Int 1], [.Tuple [.Int 7, .Int 9]], .Running (.Internal 0),
        [⟨.Xget, Option.none⟩], Value.none, Value.none, ⟨[], []⟩⟩
      = .ok ⟨[.Int 9], [.Tuple [.Int 7, .Int 9]], .Running (.Internal 1),
          [⟨.Xget, Option.none⟩], Value.none, Value.none, ⟨[], []⟩⟩ :=
  xget_leaves_aux_unchanged [⟨.Xget, Option.none⟩] 0 1 [.Int 7, .Int 9] [] []
    Value.none Value.none ⟨[], []⟩ rfl (by decide) (by decide)

/-- Claim C10 counterexample: the Not opcode on an empty stack reports
RunningErr with reason expected bool on stack, not stack underflow, because
pop_bool swallows the underflow of its inner pop_usize. -/
theorem not_on_empty_stack_reason :
    Machine.run_one (opOnEmpty .Not)
      = .err (.RunningErr "expected bool on stack" (.Internal 0) Option.none)
    ∧ errReason (Machine.run_one (opOnEmpty .Not)) ≠ some "stack underflow" :=
  ⟨rfl, by decide⟩

set_option maxRecDepth 10000 in
/-- Claim C10 as amended: every runtime opcode that pops, executed on empty
stacks, reports a RunningErr at its pc with no attached value and reason
stack underflow, except that the opcodes whose missing operand is popped as
a boolean (Not, LogicalAnd, LogicalOr, and the condition of Cjump) report
expected bool on stack, and Xget with a missing aux operand reports aux
stack underflow; the run loop then moves the machine to the Error state. -/
theorem empty_stack_pops_are_reported :
    poppingOps.all checkUnderflow = true
    ∧ Machine.run_one xgetAuxMachine
      = .err (.RunningErr "aux stack underflow" (.Internal 0) Option.none)
    ∧ (opOnEmpty .Pop).run 1 Option.none
      = .fin { opOnEmpty .Pop with
          state := .Error (.RunningErr "stack underflow" (.Internal 0) Option.none) } :=
  ⟨rfl, rfl, rfl⟩

theorem uint256_modulus_pos : 0 < uint256_modulus := by
  norm_num [uint256_modulus]

theorem pow256_32 : (256 : Nat) ^ 32 = uint256_modulus := by
  norm_num [uint256_modulus]

theorem leVal_append_single (a : List Nat) (x : Nat) :
    leVal (a ++ [x]) = leVal a + x * 256 ^ a.length := by
  induction a with
  | nil => simp [leVal]
  | cons d ds ih =>
    rw [List.cons_append]
    show d + 256 * leVal (ds ++ [x]) = d + 256 * leVal ds + x * 256 ^ (d :: ds).length
    rw [ih, List.length_cons]
    ring

theorem leVal_lt (ds : List Nat) (h : ∀ x ∈ ds, x < 256) :
    leVal ds < 256 ^ ds.length := by
  induction ds with
  | nil => simp [leVal]
  | cons d ds ih =>
    have hd : d < 256 := h d (by simp)
    have hds := ih (fun x hx => h x (by simp [hx]))
    simp only [leVal, List.length_cons, pow_succ]
    calc d + 256 * leVal ds < 256 * (leVal ds + 1) := by omega
      _ ≤ 256 * 256 ^ ds.length := Nat.mul_le_mul_left 256 (Nat.succ_le_of_lt hds)
      _ = 256 ^ ds.length * 256 := Nat.mul_comm _ _

theorem extract_leVal (ds : List Nat) (h : ∀ x ∈ ds, x < 256) :
    extractLeBytes ds.length (leVal ds) = ds := by
  induction ds with
  | nil => rfl
  | cons d ds ih =>
    have hd : d < 256 := h d (by simp)
    simp only [List.length_cons, extractLeBytes, leVal]
    have h1 : (d + 256 * leVal ds) % 256 = d := by omega
    have h2 : (d + 256 * leVal ds) / 256 = leVal ds := by omega
    rw [h1, h2, ih (fun x hx => h x (by simp [hx]))]

theorem buildUintAux_eq (k : Nat) :
    ∀ (c : List Nat) (ui : Nat), c.length ≤ k → ui < uint256_modulus →
      buildUintAux k c ui
        = (ui * 256 ^ k + leVal c.reverse * 256 ^ (k - c.length)) % uint256_modulus := by
  induction k with
  | zero =>
    intro c ui hc hui
    have hcnil : c = [] := List.length_eq_zero.mp (Nat.le_zero.mp hc)
    subst hcnil
    simp [buildUintAux, leVal, Nat.mod_eq_of_lt hui]
  | succ k ih =>
    intro c ui hc hui
    match c with
    | [] =>
      show buildUintAux k [] (u256_mul ui 256) = _
      rw [ih [] (u256_mul ui 256) (Nat.zero_le k) (Nat.mod_lt _ uint256_modulus_pos)]
      simp only [List.reverse_nil, leVal, Nat.zero_mul, Nat.add_zero, List.length_nil,
        Nat.sub_zero, u256_mul]
      rw [Nat.mod_mul_mod]
      ring_nf
    | x :: xs =>
      show buildUintAux k xs (u256_add (u256_mul ui 256) x) = _
      have hlen : xs.length ≤ k := by simpa using hc
      rw [ih xs (u256_add (u256_mul ui 256) x) hlen (Nat.mod_lt _ uint256_modulus_pos)]
      have hA : u256_add (u256_mul ui 256) x = (ui * 256 + x) % uint256_modulus := by
        simp [u256_add, u256_mul, Nat.mod_add_mod]
      rw [hA]
      have hpow : (256 : Nat) ^ xs.length * 256 ^ (k - xs.length) = 256 ^ k := by
        rw [← pow_add]
        congr 1
        omega
      have hmod :=
        ((Nat.mod_modEq (ui * 256 + x) uint256_modulus).mul_right (256 ^ k)).add_right
          (leVal xs.reverse * 256 ^ (k - xs.length))
      rw [List.reverse_cons, leVal_append_single, List.length_reverse, List.length_cons]
      have hk1 : k + 1 - (xs.length + 1) = k - xs.length := by omega
      rw [hk1]
      have hinner : (ui * 256 + x) * 256 ^ k + leVal xs.reverse * 256 ^ (k - xs.length)
          = ui * 256 ^ (k + 1) + (leVal xs.reverse + x * 256 ^ xs.length) * 256 ^ (k - xs.length) := by
        rw [Nat.add_mul (leVal xs.reverse), Nat.mul_assoc, hpow]
        ring
      rw [← hinner]
      exact hmod

theorem buildUint_closed (c : List Nat) (hlen : c.length ≤ 32) (hb : ∀ x ∈ c, x < 256) :
    buildUintAux 32 c 0 = leVal c.reverse * 256 ^ (32 - c.length) := by
  rw [buildUintAux_eq 32 c 0 hlen uint256_modulus_pos]
  simp only [Nat.zero_mul, Nat.zero_add]
  apply Nat.mod_eq_of_lt
  have h1 : leVal c.reverse < 256 ^ c.length := by
    have := leVal_lt c.reverse (fun x hx => hb x (List.mem_reverse.mp hx))
    rwa [List.length_reverse] at this
  calc leVal c.reverse * 256 ^ (32 - c.length)
      < 256 ^ c.length * 256 ^ (32 - c.length) :=
        Nat.mul_lt_mul_of_lt_of_le h1 (Nat.le_refl _) (pow_pos (by norm_num) _)
    _ = 256 ^ 32 := by rw [← pow_add]; congr 1; omega
    _ = uint256_modulus := pow256_32

theorem dropLowBytes_eq (k : Nat) : ∀ v : Nat, dropLowBytes k v = v / 256 ^ k := by
  induction k with
  | zero => intro v; simp [dropLowBytes]
  | succ k ih =>
    intro v
    rw [show dropLowBytes (k + 1) v = dropLowBytes k (v / 256) from rfl, ih,
      Nat.div_div_eq_div_mul, pow_succ]
    ring_nf

theorem extract_reverse_chunk (c : List Nat) (hb : ∀ x ∈ c, x < 256) :
    (extractLeBytes c.length (leVal c.reverse)).reverse = c := by
  have h := extract_leVal c.reverse (fun x hx => hb x (List.mem_reverse.mp hx))
  rw [List.length_reverse] at h
  rw [h, List.reverse_reverse]

theorem decode_step_full (c : List Nat) (tail : Value) (m : Nat) (p : List Nat)
    (hc : c.length = 32) (hb : ∀ x ∈ c, x < 256) (hm : m % 32 = 0)
    (hsub : bytes_from_bytestack_2 tail m = some p) :
    bytes_from_bytestack_2 (.Tuple [bytestack_build_uint c, tail]) (m + 32)
      = some (p ++ c) := by
  have hne : ¬ (m + 32 = 0) := by omega
  have h32 : (m + 32) % 32 = 0 := by omega
  rw [bytes_from_bytestack_2.eq_def, dif_neg hne]
  simp only [bytestack_build_uint, cellParts]
  rw [dif_pos h32, show m + 32 - 32 = m from by omega, hsub]
  rw [buildUint_closed c (by omega) hb, hc]
  simp only [Nat.sub_self, pow_zero, Nat.mul_one, Option.map_some]
  have hrev : (extractLeBytes 32 (leVal c.reverse)).reverse = c := by
    have := extract_reverse_chunk c hb
    rwa [hc] at this
  rw [hrev]
  rfl

theorem decode_step_straggler (c : List Nat) (tail : Value) (m : Nat) (p : List Nat)
    (hcpos : 0 < c.length) (hclt : c.length < 32) (hb : ∀ x ∈ c, x < 256)
    (hm : m % 32 = 0) (hsub : bytes_from_bytestack_2 tail m = some p) :
    bytes_from_bytestack_2 (.Tuple [bytestack_build_uint c, tail]) (m + c.length)
      = some (p ++ c) := by
  have hne : ¬ (m + c.length = 0) := by omega
  have h32 : ¬ ((m + c.length) % 32 = 0) := by omega
  rw [bytes_from_bytestack_2.eq_def, dif_neg hne]
  simp only [bytestack_build_uint, cellParts]
  rw [dif_neg h32, show 32 * ((m + c.length) / 32) = m from by omega, hsub]
  rw [buildUint_closed c (by omega) hb]
  rw [show (m + c.length) % 32 = c.length from by omega]
  rw [dropLowBytes_eq,
    Nat.mul_div_cancel (leVal c.reverse) (pow_pos (by norm_num) (32 - c.length)),
    extract_reverse_chunk c hb]
  rfl

theorem roundtrip_aux (n : Nat) :
    ∀ (b : List Nat), b.length ≤ n →
      ∀ (so_far : Value) (m : Nat) (p : List Nat),
        m % 32 = 0 → (b = [] → m = 0) → (∀ x ∈ b, x < 256) →
        bytes_from_bytestack_2 so_far m = some p →
        bytes_from_bytestack_2 (bytestack_from_bytes_2 b so_far) (m + b.length)
          = some (p ++ b) := by
  induction n with
  | zero =>
    intro b hb so_far m p hm hempty hbytes hsub
    have hbnil : b = [] := List.length_eq_zero.mp (Nat.le_zero.mp hb)
    subst hbnil
    have hm0 : m = 0 := hempty rfl
    subst hm0
    rw [bytestack_from_bytes_2.eq_def, dif_neg (by simp)]
    have hp : p = [] := by
      rw [bytes_from_bytestack_2.eq_def, dif_pos rfl] at hsub
      exact (Option.some_inj.mp hsub.symm)
    subst hp
    rw [bytes_from_bytestack_2.eq_def]
    simp
  | succ n ih =>
    intro b hb so_far m p hm hempty hbytes hsub
    by_cases hgt : b.length > 32
    · rw [bytestack_from_bytes_2.eq_def, dif_pos hgt]
      have htake : (b.take 32).length = 32 := by simp; omega
      have hstep := decode_step_full (b.take 32) so_far m p htake
        (fun x hx => hbytes x (List.mem_of_mem_take hx)) hm hsub
      have hdroplen : (b.drop 32).length ≤ n := by simp; omega
      have hrec := ih (b.drop 32) hdroplen
        (.Tuple [bytestack_build_uint (b.take 32), so_far]) (m + 32) (p ++ b.take 32)
        (by omega) (by intro hd; exfalso; have := congrArg List.length hd; simp at this; omega)
        (fun x hx => hbytes x (List.mem_of_mem_drop hx)) hstep
      rw [show m + 32 + (b.drop 32).length = m + b.length from by simp; omega] at hrec
      rw [hrec]
      rw [List.append_assoc, List.take_append_drop]
    · rw [bytestack_from_bytes_2.eq_def, dif_neg hgt]
      by_cases hbnil : b = []
      · subst hbnil
        have hm0 : m = 0 := hempty rfl
        subst hm0
        have hp : p = [] := by
          rw [bytes_from_bytestack_2.eq_def, dif_pos rfl] at hsub
          exact (Option.some_inj.mp hsub.symm)
        subst hp
        rw [bytes_from_bytestack_2.eq_def, dif_pos (by simp)]
        rfl
      · have hpos : 0 < b.length := List.length_pos.mpr hbnil
        by_cases h32 : b.length = 32
        · have := decode_step_full b so_far m p h32 hbytes hm hsub
          rw [show m + b.length = m + 32 from by omega]
          exact this
        · exact decode_step_straggler b so_far m p hpos (by omega) hbytes hm hsub

/-- Claim C7: decoding the bytestack encoding of any byte sequence returns
exactly that sequence, for every length: zero, a multiple of 32, or one with
a partial final chunk (bytes are below 256, and the length fits the host
word as every Rust vector length does). -/
theorem bytestack_roundtrip (b : List Nat) (hb : ∀ x ∈ b, x < 256)
    (hlen : b.length < 2 ^ 64) :
    bytes_from_bytestack (bytestack_from_bytes b) = some b := by
  have hm : u256_from_usize b.length = b.length := by
    apply Nat.mod_eq_of_lt
    calc b.length < 2 ^ 64 := hlen
      _ < uint256_modulus := by norm_num [uint256_modulus]
  have h1 : bytestack_from_bytes b
      = .Tuple [.Int b.length, bytestack_from_bytes_2 b Value.none] := by
    rw [show bytestack_from_bytes b
      = .Tuple [.Int (u256_from_usize b.length), bytestack_from_bytes_2 b Value.none] from rfl,
      hm]
  rw [h1]
  have h2 : bytes_from_bytestack (.Tuple [.Int b.length, bytestack_from_bytes_2 b Value.none])
      = bytes_from_bytestack_2 (bytestack_from_bytes_2 b Value.none) b.length := by
    show (match u256_to_usize b.length with
      | some nbytes => bytes_from_bytestack_2 (bytestack_from_bytes_2 b Value.none) nbytes
      | Option.none => Option.none) = _
    rw [show u256_to_usize b.length = some b.length from by
      simp only [u256_to_usize]
      rw [if_pos hlen]]
  rw [h2]
  have hbase : bytes_from_bytestack_2 Value.none 0 = some [] := by
    rw [bytes_from_bytestack_2.eq_def, dif_pos rfl]
  have hmain := roundtrip_aux b.length b (Nat.le_refl _) Value.none 0 [] (by omega)
    (fun _ => rfl) hb hbase
  rw [Nat.zero_add] at hmain
  rw [hmain]
  simp

/-- Witness for the round-trip theorem at the concrete byte sequence
[1, 2, 3]. -/
theorem bytestack_roundtrip_witness :
    bytes_from_bytestack (bytestack_from_bytes [1, 2, 3]) = some [1, 2, 3] :=
  bytestack_roundtrip [1, 2, 3] (by decide) (by decide)

theorem xlate_tuple (xm : List (AvmLabel × AvmLabel)) (vs : List Value) :
    Value.xlate xm (.Tuple vs) = .Tuple (vs.map (Value.xlate xm)) := by
  rw [Value.xlate]
  congr 1
  exact List.attach_map_coe vs (Value.xlate xm)

theorem xlate_none (xm : List (AvmLabel × AvmLabel)) :
    Value.xlate xm Value.none = Value.none := by
  rw [show Value.none = Value.Tuple [] from rfl, xlate_tuple]
  rfl

theorem xlate_make_uninitialized_tuple (xm : List (AvmLabel × AvmLabel)) (n : Nat) :
    Value.xlate xm (make_uninitialized_tuple n) = make_uninitialized_tuple n := by
  induction n using Nat.strong_induction_on with
  | _ n ih =>
    rw [make_uninitialized_tuple.eq_def]
    by_cases h : n ≤ TUPLE_SIZE
    · rw [dif_pos h, xlate_tuple, List.map_replicate, xlate_none]
    · rw [dif_neg h, xlate_tuple, List.map_replicate,
        ih _ (by simp only [TUPLE_SIZE] at h ⊢; omega)]

theorem relocate_global_limit (p : CompiledProgram) (io eo fo go : Nat) :
    ((p.relocate io eo fo go).fst).global_num_limit = p.global_num_limit + go := rfl

theorem relocate_progs_glob (ps : List CompiledProgram) :
    ∀ a b fo go : Nat,
      (relocate_progs (zipOffsets ps (link_offsets ps a b)) fo go).snd
        = go + sumGlobals ps := by
  induction ps with
  | nil => intro a b fo go; simp [relocate_progs, link_offsets, zipOffsets, sumGlobals]
  | cons p ps ih =>
    intro a b fo go
    simp only [link_offsets, zipOffsets, relocate_progs, relocate_global_limit, ih]
    simp only [sumGlobals, List.map_cons, List.sum_cons]
    omega

theorem relocate_code (p : CompiledProgram) (io eo fo go : Nat) :
    ((p.relocate io eo fo go).fst).code
      = p.code.map (fun insn => (insn.relocate io eo fo go).fst) := by
  simp [CompiledProgram.relocate, List.map_map]

theorem relocate_progs_code (xm : List (AvmLabel × AvmLabel)) (ps : List CompiledProgram) :
    ∀ a b fo go : Nat,
      (((relocate_progs (zipOffsets ps (link_offsets ps a b)) fo go).fst.map
          (fun q => q.code)).flatten).map (Instruction.xlate xm)
        = closedSegs xm ps a b fo go := by
  induction ps with
  | nil => intro a b fo go; simp [relocate_progs, link_offsets, zipOffsets, closedSegs]
  | cons p ps ih =>
    intro a b fo go
    simp only [link_offsets, zipOffsets, relocate_progs, closedSegs,
      List.map_cons, List.flatten_cons, List.map_append]
    congr 1
    · rw [relocate_code, List.map_map]
      rfl
    · rw [relocate_global_limit, Nat.add_comm p.global_num_limit go]
      exact ih (a + p.code.length) (b + p.imported_funcs.length)
        (p.relocate a b fo go).snd (go + p.global_num_limit)

theorem link_global_limit_eq_sum (progs : List CompiledProgram) :
    link_global_limit progs = sumGlobals progs := by
  rw [link_global_limit, relocate_progs_glob progs 1 0 0 0, Nat.zero_add]

/-- Claim C8: for every full program list (the builtins appended by
add_auto_link_progs included), the merged code of link starts at index 0
with an Rset whose immediate is make_uninitialized_tuple of the total global
count of all programs, and is followed by the programs in order, each
relocated with internal offset 1 plus the total code length of all
preceding programs (external offset the import count of the preceding
programs, globals offset their global count, the func offset threaded
through) and then label-translated. -/
theorem link_init_and_layout (progs : List CompiledProgram) :
    (link progs).code
      = ⟨.Rset, some (make_uninitialized_tuple (sumGlobals progs))⟩ ::
          closedSegs (link_xlate_map progs) progs 1 0 0 0 := by
  show (Instruction.mk .Rset (some (make_uninitialized_tuple (link_global_limit progs))) ::
      ((link_relocated progs).map (fun q => q.code)).flatten).map
        (Instruction.xlate (link_xlate_map progs)) = _
  rw [List.map_cons]
  congr 1
  · show Instruction.mk .Rset
        (some (Value.xlate (link_xlate_map progs)
          (make_uninitialized_tuple (link_global_limit progs)))) = _
    rw [xlate_make_uninitialized_tuple, link_global_limit_eq_sum]
  · rw [show link_relocated progs
        = (relocate_progs (zipOffsets progs (link_offsets progs 1 0)) 0 0).fst from rfl]
    exact relocate_progs_code (link_xlate_map progs) progs 1 0 0 0

end MiniAvm
